import Mathlib

/-!
Shallow embedding of the neon-cube twisty-puzzle core
(the Cube3D component source, `src/unnamed/part_000`,
`src/unnamed/part_001`, `App.tsx`).

The source stores lattice positions as numbers that are rounded to integers
after every committed move, so positions are embedded as exact integer
triples and the JavaScript `Math.round` becomes the identity on them.
The mesh orientation (a three.js quaternion that only ever gets composed
with quarter-turn deltas) is embedded as an exact 3 x 3 integer rotation
matrix; composing with the quarter-turn delta about a principal axis is
exact integer arithmetic.  Pointer-space quantities (drag vectors, face
normals) are embedded over the rationals.
-/

namespace NeonCube

/-- Rotation axis, matching the three axis string literals of the source. -/
inductive Axis where
  | x
  | y
  | z
deriving DecidableEq, Repr

/-- Turn direction, the `1 | -1` literal type of the source. -/
inductive Direction where
  | pos
  | neg
deriving DecidableEq, Repr

/-- The integer the source stores for a `Direction`. -/
def Direction.toInt : Direction → Int
  | .pos => 1
  | .neg => -1

/-- The opposite turn direction (`-direction` in the source). -/
def Direction.opp : Direction → Direction
  | .pos => .neg
  | .neg => .pos

/-- An integer 3-vector: a lattice position `[x, y, z]` of the source. -/
structure Vec3 where
  x : Int
  y : Int
  z : Int
deriving DecidableEq, Repr

/-- Component along an axis: index 0, 1 or 2 of the position tuple. -/
def Vec3.comp : Vec3 → Axis → Int
  | v, .x => v.x
  | v, .y => v.y
  | v, .z => v.z

/-- The rounding helper `round` of the source, a direct alias of
Math.round.  On the exact
integer embedding of lattice coordinates `Math.round` is the identity. -/
def round (v : Int) : Int := v

/-- Componentwise rounding of a position vector, as done to
`mesh.position` at the end of a committed move. -/
def roundVec (v : Vec3) : Vec3 := ⟨round v.x, round v.y, round v.z⟩

/-- A 3 x 3 integer matrix, given by rows; embeds the mesh world
quaternion of a cubelet as an exact rotation. -/
structure Mat3 where
  r1 : Vec3
  r2 : Vec3
  r3 : Vec3
deriving DecidableEq, Repr

/-- Dot product of integer 3-vectors. -/
def dot (a b : Vec3) : Int := a.x * b.x + a.y * b.y + a.z * b.z

/-- Apply a matrix to a column vector. -/
def applyMat (m : Mat3) (v : Vec3) : Vec3 := ⟨dot m.r1 v, dot m.r2 v, dot m.r3 v⟩

/-- Matrix product (rows of `a` times columns of `b`). -/
def mulMat (a b : Mat3) : Mat3 :=
  ⟨⟨a.r1.x * b.r1.x + a.r1.y * b.r2.x + a.r1.z * b.r3.x,
    a.r1.x * b.r1.y + a.r1.y * b.r2.y + a.r1.z * b.r3.y,
    a.r1.x * b.r1.z + a.r1.y * b.r2.z + a.r1.z * b.r3.z⟩,
   ⟨a.r2.x * b.r1.x + a.r2.y * b.r2.x + a.r2.z * b.r3.x,
    a.r2.x * b.r1.y + a.r2.y * b.r2.y + a.r2.z * b.r3.y,
    a.r2.x * b.r1.z + a.r2.y * b.r2.z + a.r2.z * b.r3.z⟩,
   ⟨a.r3.x * b.r1.x + a.r3.y * b.r2.x + a.r3.z * b.r3.x,
    a.r3.x * b.r1.y + a.r3.y * b.r2.y + a.r3.z * b.r3.y,
    a.r3.x * b.r1.z + a.r3.y * b.r2.z + a.r3.z * b.r3.z⟩⟩

/-- Determinant of a 3 x 3 matrix. -/
def det (m : Mat3) : Int :=
  m.r1.x * (m.r2.y * m.r3.z - m.r2.z * m.r3.y)
    - m.r1.y * (m.r2.x * m.r3.z - m.r2.z * m.r3.x)
    + m.r1.z * (m.r2.x * m.r3.y - m.r2.y * m.r3.x)

/-- The identity matrix: `new THREE.Quaternion()` of `initialCubelets`. -/
def idMat : Mat3 := ⟨⟨1, 0, 0⟩, ⟨0, 1, 0⟩, ⟨0, 0, 1⟩⟩

/-- The rotation a committed move applies to the affected slice.  The
source rotates the pivot by `targetRot = (Math.PI / 2) * direction * -1`
about `axis`; with `d = direction.toInt` the angle is `-d * pi / 2`, whose
cosine is `0` and whose sine is `-d`, giving these exact integer
matrices. -/
def rotMat : Axis → Direction → Mat3
  | .x, d => ⟨⟨1, 0, 0⟩, ⟨0, 0, d.toInt⟩, ⟨0, -d.toInt, 0⟩⟩
  | .y, d => ⟨⟨0, 0, -d.toInt⟩, ⟨0, 1, 0⟩, ⟨d.toInt, 0, 0⟩⟩
  | .z, d => ⟨⟨0, d.toInt, 0⟩, ⟨-d.toInt, 0, 0⟩, ⟨0, 0, 1⟩⟩

/-- The action of a quarter turn on a position, written out directly
(the same map as `applyMat (rotMat axis direction)`). -/
def rotVec (axis : Axis) (direction : Direction) (p : Vec3) : Vec3 :=
  match axis with
  | .x => ⟨p.x, direction.toInt * p.z, -direction.toInt * p.y⟩
  | .y => ⟨-direction.toInt * p.z, p.y, direction.toInt * p.x⟩
  | .z => ⟨direction.toInt * p.y, -direction.toInt * p.x, p.z⟩

/-- The CUBE_COLORS constants of the source. -/
structure CubeColors where
  U : String
  D : String
  F : String
  B : String
  L : String
  R : String
  CORE : String
deriving DecidableEq, Repr

def CUBE_COLORS : CubeColors :=
  { U := "#ffffff", D := "#ffd500", F := "#00d936", B := "#0051ff"
    L := "#ff5900", R := "#ff0055", CORE := "#1a1a1a" }

/-- The per-cubelet face colors assigned by `initialCubelets`. -/
structure ColorMap where
  right : String
  left : String
  up : String
  down : String
  front : String
  back : String
deriving DecidableEq, Repr

/-- Face colors from the initial position, as in `initialCubelets`. -/
def colorMapOf (x y z : Int) : ColorMap :=
  { right := if x = 1 then CUBE_COLORS.R else CUBE_COLORS.CORE
    left := if x = -1 then CUBE_COLORS.L else CUBE_COLORS.CORE
    up := if y = 1 then CUBE_COLORS.U else CUBE_COLORS.CORE
    down := if y = -1 then CUBE_COLORS.D else CUBE_COLORS.CORE
    front := if z = 1 then CUBE_COLORS.F else CUBE_COLORS.CORE
    back := if z = -1 then CUBE_COLORS.B else CUBE_COLORS.CORE }

/-- One logical cubelet, the record pushed by `initialCubelets`.  The
`rotation` field embeds the accumulated mesh quaternion of the cubelet
as an exact rotation matrix. -/
structure Cubelet where
  id : Nat
  initialPos : Vec3
  currentPos : Vec3
  rotation : Mat3
  colorMap : ColorMap
deriving DecidableEq, Repr

/-- The lattice coordinates `-1, 0, 1` in loop order. -/
def latticeCoords : List Int := [-1, 0, 1]

/-- All 27 lattice positions in the nesting order of the source loops
(`x` outermost, then `y`, then `z`). -/
def allPositions : List Vec3 :=
  latticeCoords.flatMap fun x =>
    latticeCoords.flatMap fun y =>
      latticeCoords.map fun z => ⟨x, y, z⟩

/-- The `initialCubelets` list: one cubelet per lattice position, ids assigned in
loop order, `currentPos = initialPos`, identity rotation, face colors
from the initial position. -/
def initialCubelets : List Cubelet :=
  allPositions.enum.map fun ip =>
    { id := ip.1
      initialPos := ip.2
      currentPos := ip.2
      rotation := idMat
      colorMap := colorMapOf ip.2.x ip.2.y ip.2.z }

/-- The component state of `Cube3D` that the claims are about: the
`cubelets` array and the `isAnimating` flag. -/
structure Store where
  cubelets : List Cubelet
  isAnimating : Bool
deriving DecidableEq, Repr

/-- The freshly initialized store. -/
def initStore : Store := { cubelets := initialCubelets, isAnimating := false }

/-- The update a committed move applies to one cubelet: cubelets whose
rounded coordinate along `axis` equals `sliceIndex` are attached to the
pivot, get the quarter-turn world rotation, their mesh position is
rounded componentwise, and `currentPos` is copied back from the mesh;
all other cubelets are untouched. -/
def stepCubelet (axis : Axis) (sliceIndex : Int) (direction : Direction)
    (c : Cubelet) : Cubelet :=
  if round (c.currentPos.comp axis) = sliceIndex then
    { c with
      currentPos := roundVec (rotVec axis direction c.currentPos)
      rotation := mulMat (rotMat axis direction) c.rotation }
  else c

/-- The commit function `rotateSlice`: the logical effect of one
committed move on the store.  The animation is presentation only; the
mutation happens once, at completion.  `isAnimating` is set on entry and
cleared on completion, so the committed store has it cleared.  Note that
`rotateSlice` itself performs no busy check. -/
def rotateSlice (axis : Axis) (sliceIndex : Int) (direction : Direction)
    (s : Store) : Store :=
  { cubelets := s.cubelets.map (stepCubelet axis sliceIndex direction)
    isAnimating := false }

/-- A move record: the argument triple of `rotateSlice`. -/
structure Move where
  axis : Axis
  sliceIndex : Int
  direction : Direction
deriving DecidableEq, Repr

/-- Committing a sequence of moves in order. -/
def applyMoves (ms : List Move) (s : Store) : Store :=
  ms.foldl (fun st m => rotateSlice m.axis m.sliceIndex m.direction st) s

/-- The game states of `types.ts`. -/
inductive GameState where
  | IDLE
  | PLAYING
  | SOLVED
deriving DecidableEq, Repr

/-- The App component function startSequence sets `gameState` to `IDLE` for the whole scramble
phase (the `isScrambling` flag is separate); `PLAYING` is only entered
after scrambling finishes. -/
def scrambleGameState : GameState := GameState.IDLE

/-- The reference up direction used by `checkSolved`. -/
def upVec : Vec3 := ⟨0, 1, 0⟩

/-- The reference front direction used by `checkSolved`. -/
def frontVec : Vec3 := ⟨0, 0, 1⟩

/-- The solved detector `checkSolved`, as the boolean "does `onSolve` fire".  The source
returns immediately unless `gameState` is `PLAYING`; otherwise it scans
the cubelets (breaking at the first failure, which is `List.all`) and
fires `onSolve` when every cubelet passes the position check (rounded
current position equals initial position) and the two orientation
checks: the rotated up vector must have `|up.y - 1| <= 0.1` and the
rotated front vector `|front.z - 1| <= 0.1`. -/
def checkSolved (gameState : GameState) (cubelets : List Cubelet) : Bool :=
  if gameState ≠ GameState.PLAYING then false
  else
    cubelets.all fun c =>
      (round c.currentPos.x == c.initialPos.x
        && round c.currentPos.y == c.initialPos.y
        && round c.currentPos.z == c.initialPos.z)
      && decide (|((applyMat c.rotation upVec).y : ℚ) - 1| ≤ 1 / 10)
      && decide (|((applyMat c.rotation frontVec).z : ℚ) - 1| ≤ 1 / 10)

/-- A rational 3-vector: pointer-space points, drag vectors and snapped
face normals. -/
structure QVec3 where
  x : ℚ
  y : ℚ
  z : ℚ
deriving DecidableEq, Repr

/-- Vector difference, `e.point.clone().sub(startPoint)`. -/
def subQ (a b : QVec3) : QVec3 := ⟨a.x - b.x, a.y - b.y, a.z - b.z⟩

/-- Componentwise negation (the opposite face normal). -/
def negQ (v : QVec3) : QVec3 := ⟨-v.x, -v.y, -v.z⟩

/-- Squared Euclidean length.  The source compares `length() < 0.25`;
for nonnegative lengths this is equivalent to `lengthSq < 1/16`. -/
def lengthSq (v : QVec3) : ℚ := v.x * v.x + v.y * v.y + v.z * v.z

/-- The six snapped face normals `handlePointerDown` can produce. -/
def snappedNormals : List QVec3 :=
  [⟨1, 0, 0⟩, ⟨-1, 0, 0⟩, ⟨0, 1, 0⟩, ⟨0, -1, 0⟩, ⟨0, 0, 1⟩, ⟨0, 0, -1⟩]

/-- The axis/slice/direction resolution of `handlePointerMove`, applied
once the drag threshold has fired: branch on which principal axis the
snapped `normal` lies on, compare the absolute tangential components of
`moveVector`, take `slice` from the pressed cubelet, and fix the sign by
the products in the source. -/
def resolveMove (normal : QVec3) (moveVector : QVec3) (cubiePos : Vec3) : Move :=
  let absX := |moveVector.x|
  let absY := |moveVector.y|
  let absZ := |moveVector.z|
  if |normal.x| > 1 / 2 then
    if absY > absZ then
      { axis := .z, sliceIndex := round (cubiePos.comp .z)
        direction := if moveVector.y * normal.x > 0 then .neg else .pos }
    else
      { axis := .y, sliceIndex := round (cubiePos.comp .y)
        direction := if moveVector.z * normal.x > 0 then .pos else .neg }
  else if |normal.y| > 1 / 2 then
    if absX > absZ then
      { axis := .z, sliceIndex := round (cubiePos.comp .z)
        direction := if moveVector.x * normal.y > 0 then .pos else .neg }
    else
      { axis := .x, sliceIndex := round (cubiePos.comp .x)
        direction := if moveVector.z * normal.y > 0 then .neg else .pos }
  else
    if absX > absY then
      { axis := .y, sliceIndex := round (cubiePos.comp .y)
        direction := if moveVector.x * normal.z > 0 then .neg else .pos }
    else
      { axis := .x, sliceIndex := round (cubiePos.comp .x)
        direction := if moveVector.y * normal.z > 0 then .pos else .neg }

/-- The drag interaction state held in `interactRef`. -/
structure InteractState where
  startFaceNormal : QVec3
  startPoint : QVec3
  intersectedCubieId : Int
  isDragging : Bool
deriving DecidableEq, Repr

/-- The drag handler `handlePointerMove`: guard on the latch, the busy flag and a bound
cubelet; compute the drag vector; below the `0.25` dead zone resolve no
move; otherwise clear the latch, resolve the move from the snapped
normal, the drag vector and the pressed cubelet, and commit it through
`rotateSlice`.  Returns the resolved move (if any), the updated
interaction state, and the updated store. -/
def handlePointerMove (inter : InteractState) (point : QVec3) (s : Store) :
    Option Move × InteractState × Store :=
  if !inter.isDragging || s.isAnimating || inter.intersectedCubieId == -1 then
    (none, inter, s)
  else
    let moveVector := subQ point inter.startPoint
    if lengthSq moveVector < 1 / 16 then (none, inter, s)
    else
      let inter' := { inter with isDragging := false }
      match s.cubelets.get? inter.intersectedCubieId.toNat with
      | none => (none, inter', s)
      | some cubie =>
          let m := resolveMove inter.startFaceNormal moveVector cubie.currentPos
          (some m, inter', rotateSlice m.axis m.sliceIndex m.direction s)

/-- The scramble effect: when the `scramble` prop is set and no move is
animating it replays its randomly generated moves sequentially (each
step awaits the previous one); otherwise it does nothing.  The random
choices are passed in as the list `ms`. -/
def scrambleEffect (scramble : Bool) (ms : List Move) (s : Store) : Store :=
  if scramble && !s.isAnimating then applyMoves ms s else s

/-- The unit vectors along the principal axes. -/
def unitVecs : List Vec3 :=
  [⟨1, 0, 0⟩, ⟨-1, 0, 0⟩, ⟨0, 1, 0⟩, ⟨0, -1, 0⟩, ⟨0, 0, 1⟩, ⟨0, 0, -1⟩]

/-- The 24-element rotation group of the cube: all matrices whose rows
are pairwise orthogonal signed unit vectors and whose determinant is 1
(exactly the compositions of quarter turns about the principal axes). -/
def rotationGroup : List Mat3 :=
  (unitVecs.flatMap fun a =>
    unitVecs.flatMap fun b =>
      unitVecs.map fun c => Mat3.mk a b c).filter fun m =>
    dot m.r1 m.r2 == 0 && dot m.r1 m.r3 == 0 && dot m.r2 m.r3 == 0
      && det m == 1

/-- The list of current positions of a store, in cubelet order. -/
def posList (s : Store) : List Vec3 := s.cubelets.map Cubelet.currentPos

/-- The action of one committed move on a single position value. -/
def stepPos (axis : Axis) (sliceIndex : Int) (direction : Direction)
    (p : Vec3) : Vec3 :=
  if round (p.comp axis) = sliceIndex then roundVec (rotVec axis direction p)
  else p

theorem roundVec_id (v : Vec3) : roundVec v = v := rfl

theorem comp_rotVec (a : Axis) (d : Direction) (p : Vec3) :
    (rotVec a d p).comp a = p.comp a := by
  cases a <;> rfl

theorem rotVec_four (a : Axis) (d : Direction) (p : Vec3) :
    rotVec a d (rotVec a d (rotVec a d (rotVec a d p))) = p := by
  obtain ⟨px, py, pz⟩ := p
  cases a <;> cases d <;> simp [rotVec, Direction.toInt]

theorem rotVec_opp (a : Axis) (d : Direction) (p : Vec3) :
    rotVec a d.opp (rotVec a d p) = p := by
  obtain ⟨px, py, pz⟩ := p
  cases a <;> cases d <;> simp [rotVec, Direction.toInt, Direction.opp]

theorem mulRot_four (a : Axis) (d : Direction) (m : Mat3) :
    mulMat (rotMat a d)
      (mulMat (rotMat a d) (mulMat (rotMat a d) (mulMat (rotMat a d) m))) = m := by
  obtain ⟨⟨m11, m12, m13⟩, ⟨m21, m22, m23⟩, ⟨m31, m32, m33⟩⟩ := m
  cases a <;> cases d <;> simp [mulMat, rotMat, Direction.toInt]

theorem mulRot_opp (a : Axis) (d : Direction) (m : Mat3) :
    mulMat (rotMat a d.opp) (mulMat (rotMat a d) m) = m := by
  obtain ⟨⟨m11, m12, m13⟩, ⟨m21, m22, m23⟩, ⟨m31, m32, m33⟩⟩ := m
  cases a <;> cases d <;> simp [mulMat, rotMat, Direction.toInt, Direction.opp]

theorem stepCubelet_mk_of_mem {a : Axis} {i : Int} {d : Direction}
    {cid : Nat} {ip p : Vec3} {m : Mat3} {col : ColorMap}
    (h : round (p.comp a) = i) :
    stepCubelet a i d ⟨cid, ip, p, m, col⟩
      = ⟨cid, ip, rotVec a d p, mulMat (rotMat a d) m, col⟩ := by
  have h' : round ((Cubelet.mk cid ip p m col).currentPos.comp a) = i := h
  rw [stepCubelet, if_pos h']
  rfl

theorem stepCubelet_mk_of_not_mem {a : Axis} {i : Int} {d : Direction}
    {cid : Nat} {ip p : Vec3} {m : Mat3} {col : ColorMap}
    (h : ¬ round (p.comp a) = i) :
    stepCubelet a i d ⟨cid, ip, p, m, col⟩ = ⟨cid, ip, p, m, col⟩ := by
  have h' : ¬ round ((Cubelet.mk cid ip p m col).currentPos.comp a) = i := h
  rw [stepCubelet, if_neg h']

theorem stepCubelet_four (a : Axis) (i : Int) (d : Direction) (c : Cubelet) :
    stepCubelet a i d (stepCubelet a i d (stepCubelet a i d (stepCubelet a i d c)))
      = c := by
  obtain ⟨cid, ip, p, m, col⟩ := c
  by_cases h : round (p.comp a) = i
  · have h1 : round ((rotVec a d p).comp a) = i := by
      show round _ = i
      rw [comp_rotVec]
      exact h
    have h2 : round ((rotVec a d (rotVec a d p)).comp a) = i := by
      show round _ = i
      rw [comp_rotVec]
      exact h1
    have h3 : round ((rotVec a d (rotVec a d (rotVec a d p))).comp a) = i := by
      show round _ = i
      rw [comp_rotVec]
      exact h2
    rw [stepCubelet_mk_of_mem h, stepCubelet_mk_of_mem h1, stepCubelet_mk_of_mem h2,
      stepCubelet_mk_of_mem h3, rotVec_four, mulRot_four]
  · rw [stepCubelet_mk_of_not_mem h, stepCubelet_mk_of_not_mem h,
      stepCubelet_mk_of_not_mem h, stepCubelet_mk_of_not_mem h]

theorem stepCubelet_opp (a : Axis) (i : Int) (d : Direction) (c : Cubelet) :
    stepCubelet a i d.opp (stepCubelet a i d c) = c := by
  obtain ⟨cid, ip, p, m, col⟩ := c
  by_cases h : round (p.comp a) = i
  · have h1 : round ((rotVec a d p).comp a) = i := by
      show round _ = i
      rw [comp_rotVec]
      exact h
    rw [stepCubelet_mk_of_mem h, stepCubelet_mk_of_mem h1, rotVec_opp, mulRot_opp]
  · rw [stepCubelet_mk_of_not_mem h, stepCubelet_mk_of_not_mem h]

theorem posList_rotateSlice (a : Axis) (i : Int) (d : Direction) (s : Store) :
    posList (rotateSlice a i d s) = (posList s).map (stepPos a i d) := by
  simp only [posList, rotateSlice, List.map_map]
  apply List.map_congr_left
  intro c _
  simp only [Function.comp_apply, stepCubelet, stepPos]
  by_cases h : round (c.currentPos.comp a) = i
  · rw [if_pos h, if_pos h]
  · rw [if_neg h, if_neg h]

theorem comp_mem_of_mem_allPositions (a : Axis) :
    ∀ p ∈ allPositions, p.comp a = -1 ∨ p.comp a = 0 ∨ p.comp a = 1 := by
  cases a <;> decide

theorem stepPos_perm (a : Axis) (i : Int) (d : Direction) :
    (allPositions.map (stepPos a i d)).Perm allPositions := by
  by_cases h1 : i = -1
  · subst h1
    cases a <;> cases d <;> decide
  by_cases h2 : i = 0
  · subst h2
    cases a <;> cases d <;> decide
  by_cases h3 : i = 1
  · subst h3
    cases a <;> cases d <;> decide
  have : allPositions.map (stepPos a i d) = allPositions.map id := by
    apply List.map_congr_left
    intro p hp
    rw [stepPos, if_neg, id]
    rcases comp_mem_of_mem_allPositions a p hp with h | h | h <;>
      rw [round, h] <;> omega
  rw [this, List.map_id]

theorem posList_perm_step (a : Axis) (i : Int) (d : Direction) (s : Store)
    (h : (posList s).Perm allPositions) :
    (posList (rotateSlice a i d s)).Perm allPositions := by
  rw [posList_rotateSlice]
  exact (h.map (stepPos a i d)).trans (stepPos_perm a i d)

theorem posList_initStore : posList initStore = allPositions := by decide

theorem posList_perm_applyMoves (ms : List Move) (s : Store)
    (h : (posList s).Perm allPositions) :
    (posList (applyMoves ms s)).Perm allPositions := by
  induction ms generalizing s with
  | nil => exact h
  | cons m ms ih =>
      exact ih _ (posList_perm_step m.axis m.sliceIndex m.direction s h)

theorem rotationGroup_closed (a : Axis) (d : Direction) :
    ∀ m ∈ rotationGroup, mulMat (rotMat a d) m ∈ rotationGroup := by
  cases a <;> cases d <;> decide

theorem rotVec_mem_allPositions (a : Axis) (d : Direction) :
    ∀ p ∈ allPositions, rotVec a d p ∈ allPositions := by
  cases a <;> cases d <;> decide

/-- The exact-arithmetic cubelet invariant: rotation in the 24-element
group and position on the lattice. -/
def ExactInv (s : Store) : Prop :=
  ∀ c ∈ s.cubelets, c.rotation ∈ rotationGroup ∧ c.currentPos ∈ allPositions

theorem exactInv_initStore : ExactInv initStore := by
  unfold ExactInv
  decide

theorem exactInv_rotateSlice (a : Axis) (i : Int) (d : Direction) (s : Store)
    (h : ExactInv s) : ExactInv (rotateSlice a i d s) := by
  intro c hc
  simp only [rotateSlice, List.mem_map] at hc
  obtain ⟨c0, hc0, rfl⟩ := hc
  obtain ⟨hrot, hpos⟩ := h c0 hc0
  obtain ⟨cid, ip, p, m, col⟩ := c0
  by_cases hm : round (p.comp a) = i
  · rw [stepCubelet_mk_of_mem hm]
    exact ⟨rotationGroup_closed a d _ hrot, rotVec_mem_allPositions a d _ hpos⟩
  · rw [stepCubelet_mk_of_not_mem hm]
    exact ⟨hrot, hpos⟩

theorem exactInv_applyMoves (ms : List Move) (s : Store) (h : ExactInv s) :
    ExactInv (applyMoves ms s) := by
  induction ms generalizing s with
  | nil => exact h
  | cons m ms ih =>
      exact ih _ (exactInv_rotateSlice m.axis m.sliceIndex m.direction s h)

theorem map_step_four (a : Axis) (i : Int) (d : Direction) (l : List Cubelet) :
    ((((l.map (stepCubelet a i d)).map (stepCubelet a i d)).map
        (stepCubelet a i d)).map (stepCubelet a i d)) = l := by
  simp only [List.map_map]
  have h : ∀ c ∈ l,
      (stepCubelet a i d ∘ stepCubelet a i d ∘ stepCubelet a i d ∘
        stepCubelet a i d) c = id c := by
    intro c _
    simp only [Function.comp_apply, id_eq]
    exact stepCubelet_four a i d c
  rw [List.map_congr_left h, List.map_id]

theorem map_step_opp (a : Axis) (i : Int) (d : Direction) (l : List Cubelet) :
    ((l.map (stepCubelet a i d)).map (stepCubelet a i d.opp)) = l := by
  simp only [List.map_map]
  have h : ∀ c ∈ l,
      (stepCubelet a i d.opp ∘ stepCubelet a i d) c = id c := by
    intro c _
    simp only [Function.comp_apply, id_eq]
    exact stepCubelet_opp a i d c
  rw [List.map_congr_left h, List.map_id]

theorem vec3_eq_iff (v w : Vec3) :
    v = w ↔ v.x = w.x ∧ v.y = w.y ∧ v.z = w.z := by
  constructor
  · intro h
    rw [h]
    exact ⟨rfl, rfl, rfl⟩
  · rintro ⟨hx, hy, hz⟩
    cases v
    cases w
    simp_all

theorem opp_opp (d : Direction) : d.opp.opp = d := by
  cases d <;> rfl

theorem opp_if_np (c : ℚ) (hc : c ≠ 0) :
    (if c > 0 then Direction.neg else Direction.pos).opp
      = if -c > 0 then Direction.neg else Direction.pos := by
  rcases hc.lt_or_lt with h | h
  · rw [if_neg (not_lt.mpr h.le), if_pos (neg_pos.mpr h)]
    rfl
  · rw [if_pos h, if_neg (not_lt.mpr (neg_nonpos.mpr h.le))]
    rfl

theorem opp_if_pn (c : ℚ) (hc : c ≠ 0) :
    (if c > 0 then Direction.pos else Direction.neg).opp
      = if -c > 0 then Direction.pos else Direction.neg := by
  rcases hc.lt_or_lt with h | h
  · rw [if_neg (not_lt.mpr h.le), if_pos (neg_pos.mpr h)]
    rfl
  · rw [if_pos h, if_neg (not_lt.mpr (neg_nonpos.mpr h.le))]
    rfl

/-- A store whose busy flag is set: a move is in flight. -/
def busyStore : Store := { cubelets := initialCubelets, isAnimating := true }

/-- C1: for every finite sequence of committed moves starting from the
freshly initialized store, the 27 current positions are a permutation of
the 27 lattice positions: they are pairwise distinct, every lattice
position is occupied, and every current position is a lattice position
(each coordinate in -1, 0, 1). -/
theorem bijection_invariant (ms : List Move) :
    ((posList (applyMoves ms initStore)).Perm allPositions)
      ∧ (posList (applyMoves ms initStore)).Nodup
      ∧ (∀ v ∈ allPositions, v ∈ posList (applyMoves ms initStore))
      ∧ (∀ p ∈ posList (applyMoves ms initStore), p ∈ allPositions) := by
  have hperm : (posList (applyMoves ms initStore)).Perm allPositions :=
    posList_perm_applyMoves ms initStore (by
      rw [posList_initStore])
  refine ⟨hperm, ?_, ?_, ?_⟩
  · exact hperm.nodup_iff.mpr (by decide)
  · intro v hv
    exact hperm.mem_iff.mpr hv
  · intro p hp
    exact hperm.mem_iff.mp hp

/-- C2: committing the identical move four times in sequence restores
every cubelet exactly (position, orientation and all other fields).
Proved for every store, hence in particular for every reachable state. -/
theorem commit_four_restores (s : Store) (m : Move) :
    (rotateSlice m.axis m.sliceIndex m.direction
      (rotateSlice m.axis m.sliceIndex m.direction
        (rotateSlice m.axis m.sliceIndex m.direction
          (rotateSlice m.axis m.sliceIndex m.direction s)))).cubelets
      = s.cubelets :=
  map_step_four m.axis m.sliceIndex m.direction s.cubelets

/-- C3: committing a move and then its inverse (same axis and slice,
opposite direction) restores every cubelet exactly.  Proved for every
store, hence in particular for every reachable state. -/
theorem commit_inverse_restores (s : Store) (m : Move) :
    (rotateSlice m.axis m.sliceIndex m.direction.opp
      (rotateSlice m.axis m.sliceIndex m.direction s)).cubelets
      = s.cubelets :=
  map_step_opp m.axis m.sliceIndex m.direction s.cubelets

/-- C4 (counterexample): the commit function itself performs no busy
check.  Invoking `rotateSlice` on a store whose `isAnimating` flag is
set does change cubelet positions, so a second move request is not
rejected at the top of the commit path. -/
theorem commit_has_no_busy_check :
    busyStore.isAnimating = true
      ∧ posList (rotateSlice Axis.x 1 Direction.pos busyStore)
          ≠ posList busyStore := by
  constructor
  · rfl
  · decide

/-- C4 (amended): while a move is in flight, a second move request is
rejected in the request handlers before it can reach `rotateSlice`: the
gesture handler `handlePointerMove` returns without resolving a move or
touching the store, and the scramble effect applies none of its moves.
`rotateSlice` itself performs no busy check, but no caller in the
repository invokes it while busy. -/
theorem busy_request_noop (inter : InteractState) (point : QVec3) (s : Store)
    (ms : List Move) (h : s.isAnimating = true) :
    handlePointerMove inter point s = (none, inter, s)
      ∧ scrambleEffect true ms s = s := by
  constructor
  · unfold handlePointerMove
    rw [if_pos (by simp [h])]
  · unfold scrambleEffect
    rw [if_neg (by simp [h])]

theorem busy_request_noop_witness :
    busyStore.isAnimating = true
      ∧ (handlePointerMove ⟨⟨1, 0, 0⟩, ⟨0, 0, 0⟩, 0, true⟩ ⟨1, 1, 1⟩ busyStore
            = (none, ⟨⟨1, 0, 0⟩, ⟨0, 0, 0⟩, 0, true⟩, busyStore)
          ∧ scrambleEffect true [⟨Axis.x, 1, Direction.pos⟩] busyStore = busyStore) :=
  ⟨rfl, busy_request_noop ⟨⟨1, 0, 0⟩, ⟨0, 0, 0⟩, 0, true⟩ ⟨1, 1, 1⟩ busyStore
    [⟨Axis.x, 1, Direction.pos⟩] rfl⟩

/-- C5: in exact arithmetic, after every finite sequence of committed
moves from the freshly initialized store, the orientation of every cubelet is
a member of the 24-element rotation group.  The source rounds only the
mesh position components on commit; the mesh quaternion is updated by
bare composition with the quarter-turn delta and no snapping is applied
to it, so in the floating-point source this membership is approximate
rather than exact. -/
theorem rotation_stays_in_group (ms : List Move) :
    ∀ c ∈ (applyMoves ms initStore).cubelets, c.rotation ∈ rotationGroup :=
  fun c hc => (exactInv_applyMoves ms initStore exactInv_initStore c hc).1

/-- The first cubelet of the freshly initialized store. -/
def cubelet0 : Cubelet :=
  ⟨0, ⟨-1, -1, -1⟩, ⟨-1, -1, -1⟩, idMat, colorMapOf (-1) (-1) (-1)⟩

theorem rotation_stays_in_group_witness :
    cubelet0 ∈ (applyMoves [] initStore).cubelets
      ∧ cubelet0.rotation ∈ rotationGroup :=
  ⟨by decide, rotation_stays_in_group [] cubelet0 (by decide)⟩

/-- C6: with the game in the `PLAYING` state, the solved check fires
exactly when every cubelet sits at its initial position (the rounded
comparison of the source is exact equality on lattice integers) and its
orientation maps the reference up and front directions to vectors
passing the 0.1-epsilon component checks of the source. -/
theorem solved_check_iff (cubelets : List Cubelet) :
    checkSolved GameState.PLAYING cubelets = true ↔
      ∀ c ∈ cubelets,
        c.currentPos = c.initialPos
          ∧ |((applyMat c.rotation upVec).y : ℚ) - 1| ≤ 1 / 10
          ∧ |((applyMat c.rotation frontVec).z : ℚ) - 1| ≤ 1 / 10 := by
  unfold checkSolved
  rw [if_neg (by simp), List.all_eq_true]
  refine forall_congr' fun c => imp_congr_right fun hc => ?_
  simp only [Bool.and_eq_true, beq_iff_eq, decide_eq_true_eq, round]
  rw [vec3_eq_iff]
  tauto

/-- C7 (counterexample): a drag straight along the face normal defeats
the direction table.  With the top-face normal and the above-threshold
drag vector (0, 3/10, 0), the opposite normal resolves to the same axis
and the same (not opposite) direction sign. -/
theorem gesture_mirror_fails_on_normal_drag :
    (⟨0, 1, 0⟩ : QVec3) ∈ snappedNormals
      ∧ 1 / 16 ≤ lengthSq ⟨0, 3 / 10, 0⟩
      ∧ (resolveMove (negQ ⟨0, 1, 0⟩) ⟨0, 3 / 10, 0⟩ ⟨0, 0, 0⟩).axis
          = (resolveMove ⟨0, 1, 0⟩ ⟨0, 3 / 10, 0⟩ ⟨0, 0, 0⟩).axis
      ∧ (resolveMove (negQ ⟨0, 1, 0⟩) ⟨0, 3 / 10, 0⟩ ⟨0, 0, 0⟩).direction
          = (resolveMove ⟨0, 1, 0⟩ ⟨0, 3 / 10, 0⟩ ⟨0, 0, 0⟩).direction
      ∧ (∀ u : Direction, u.opp ≠ u) := by
  refine ⟨by decide, by norm_num [lengthSq], ?_, ?_, fun u => by cases u <;> decide⟩
  · simp only [resolveMove, negQ]
    norm_num
  · simp only [resolveMove, negQ]
    norm_num

/-- C7 (amended): for every snapped face normal, every above-threshold
drag vector whose two components tangential to the axis of the normal are
not both zero, and every pressed cubelet position, resolving with the
opposite normal yields the same rotation axis (and slice) and the
opposite direction sign. -/
theorem gesture_mirror_of_tangential (n d : QVec3) (p : Vec3)
    (hn : n ∈ snappedNormals)
    (hlen : 1 / 16 ≤ lengthSq d)
    (htan : (n.x ≠ 0 → d.y ≠ 0 ∨ d.z ≠ 0)
      ∧ (n.y ≠ 0 → d.x ≠ 0 ∨ d.z ≠ 0)
      ∧ (n.z ≠ 0 → d.x ≠ 0 ∨ d.y ≠ 0)) :
    ∃ a i u, resolveMove n d p = ⟨a, i, u⟩
      ∧ resolveMove (negQ n) d p = ⟨a, i, u.opp⟩ := by
  simp only [snappedNormals, List.mem_cons, List.not_mem_nil, or_false] at hn
  rcases hn with rfl | rfl | rfl | rfl | rfl | rfl
  · -- n = (1, 0, 0)
    have ht : d.y ≠ 0 ∨ d.z ≠ 0 := htan.1 (by norm_num)
    by_cases hin : |d.y| > |d.z|
    · have hdy : d.y ≠ 0 := by
        intro h0
        rw [h0, abs_zero] at hin
        exact absurd hin (abs_nonneg d.z).not_lt
      refine ⟨Axis.z, round (p.comp Axis.z),
        if d.y * 1 > 0 then Direction.neg else Direction.pos, ?_, ?_⟩
      · simp only [resolveMove]
        rw [if_pos (by norm_num : |(1 : ℚ)| > 1 / 2), if_pos hin]
      · simp only [resolveMove, negQ]
        rw [if_pos (by norm_num : |(-1 : ℚ)| > 1 / 2), if_pos hin,
          opp_if_np (d.y * 1) (mul_ne_zero hdy (by norm_num))]
        simp only [show d.y * -1 = -(d.y * 1) from by ring]
    · have hdz : d.z ≠ 0 := by
        intro h0
        rcases ht with h2 | h2
        · rw [h0, abs_zero] at hin
          exact h2 (abs_nonpos_iff.mp (not_lt.mp hin))
        · exact h2 h0
      refine ⟨Axis.y, round (p.comp Axis.y),
        if d.z * 1 > 0 then Direction.pos else Direction.neg, ?_, ?_⟩
      · simp only [resolveMove]
        rw [if_pos (by norm_num : |(1 : ℚ)| > 1 / 2), if_neg hin]
      · simp only [resolveMove, negQ]
        rw [if_pos (by norm_num : |(-1 : ℚ)| > 1 / 2), if_neg hin,
          opp_if_pn (d.z * 1) (mul_ne_zero hdz (by norm_num))]
        simp only [show d.z * -1 = -(d.z * 1) from by ring]
  · -- n = (-1, 0, 0)
    have ht : d.y ≠ 0 ∨ d.z ≠ 0 := htan.1 (by norm_num)
    by_cases hin : |d.y| > |d.z|
    · have hdy : d.y ≠ 0 := by
        intro h0
        rw [h0, abs_zero] at hin
        exact absurd hin (abs_nonneg d.z).not_lt
      refine ⟨Axis.z, round (p.comp Axis.z),
        if d.y * -1 > 0 then Direction.neg else Direction.pos, ?_, ?_⟩
      · simp only [resolveMove]
        rw [if_pos (by norm_num : |(-1 : ℚ)| > 1 / 2), if_pos hin]
      · simp only [resolveMove, negQ]
        rw [if_pos (by norm_num : |(-(-1) : ℚ)| > 1 / 2), if_pos hin,
          opp_if_np (d.y * -1) (mul_ne_zero hdy (by norm_num))]
        simp only [show d.y * -(-1) = -(d.y * -1) from by ring]
    · have hdz : d.z ≠ 0 := by
        intro h0
        rcases ht with h2 | h2
        · rw [h0, abs_zero] at hin
          exact h2 (abs_nonpos_iff.mp (not_lt.mp hin))
        · exact h2 h0
      refine ⟨Axis.y, round (p.comp Axis.y),
        if d.z * -1 > 0 then Direction.pos else Direction.neg, ?_, ?_⟩
      · simp only [resolveMove]
        rw [if_pos (by norm_num : |(-1 : ℚ)| > 1 / 2), if_neg hin]
      · simp only [resolveMove, negQ]
        rw [if_pos (by norm_num : |(-(-1) : ℚ)| > 1 / 2), if_neg hin,
          opp_if_pn (d.z * -1) (mul_ne_zero hdz (by norm_num))]
        simp only [show d.z * -(-1) = -(d.z * -1) from by ring]
  · -- n = (0, 1, 0)
    have ht : d.x ≠ 0 ∨ d.z ≠ 0 := htan.2.1 (by norm_num)
    by_cases hin : |d.x| > |d.z|
    · have hdx : d.x ≠ 0 := by
        intro h0
        rw [h0, abs_zero] at hin
        exact absurd hin (abs_nonneg d.z).not_lt
      refine ⟨Axis.z, round (p.comp Axis.z),
        if d.x * 1 > 0 then Direction.pos else Direction.neg, ?_, ?_⟩
      · simp only [resolveMove]
        rw [if_neg (by norm_num : ¬ |(0 : ℚ)| > 1 / 2),
          if_pos (by norm_num : |(1 : ℚ)| > 1 / 2), if_pos hin]
      · simp only [resolveMove, negQ]
        rw [if_neg (by norm_num : ¬ |(-0 : ℚ)| > 1 / 2),
          if_pos (by norm_num : |(-1 : ℚ)| > 1 / 2), if_pos hin,
          opp_if_pn (d.x * 1) (mul_ne_zero hdx (by norm_num))]
        simp only [show d.x * -1 = -(d.x * 1) from by ring]
    · have hdz : d.z ≠ 0 := by
        intro h0
        rcases ht with h2 | h2
        · rw [h0, abs_zero] at hin
          exact h2 (abs_nonpos_iff.mp (not_lt.mp hin))
        · exact h2 h0
      refine ⟨Axis.x, round (p.comp Axis.x),
        if d.z * 1 > 0 then Direction.neg else Direction.pos, ?_, ?_⟩
      · simp only [resolveMove]
        rw [if_neg (by norm_num : ¬ |(0 : ℚ)| > 1 / 2),
          if_pos (by norm_num : |(1 : ℚ)| > 1 / 2), if_neg hin]
      · simp only [resolveMove, negQ]
        rw [if_neg (by norm_num : ¬ |(-0 : ℚ)| > 1 / 2),
          if_pos (by norm_num : |(-1 : ℚ)| > 1 / 2), if_neg hin,
          opp_if_np (d.z * 1) (mul_ne_zero hdz (by norm_num))]
        simp only [show d.z * -1 = -(d.z * 1) from by ring]
  · -- n = (0, -1, 0)
    have ht : d.x ≠ 0 ∨ d.z ≠ 0 := htan.2.1 (by norm_num)
    by_cases hin : |d.x| > |d.z|
    · have hdx : d.x ≠ 0 := by
        intro h0
        rw [h0, abs_zero] at hin
        exact absurd hin (abs_nonneg d.z).not_lt
      refine ⟨Axis.z, round (p.comp Axis.z),
        if d.x * -1 > 0 then Direction.pos else Direction.neg, ?_, ?_⟩
      · simp only [resolveMove]
        rw [if_neg (by norm_num : ¬ |(0 : ℚ)| > 1 / 2),
          if_pos (by norm_num : |(-1 : ℚ)| > 1 / 2), if_pos hin]
      · simp only [resolveMove, negQ]
        rw [if_neg (by norm_num : ¬ |(-0 : ℚ)| > 1 / 2),
          if_pos (by norm_num : |(-(-1) : ℚ)| > 1 / 2), if_pos hin,
          opp_if_pn (d.x * -1) (mul_ne_zero hdx (by norm_num))]
        simp only [show d.x * -(-1) = -(d.x * -1) from by ring]
    · have hdz : d.z ≠ 0 := by
        intro h0
        rcases ht with h2 | h2
        · rw [h0, abs_zero] at hin
          exact h2 (abs_nonpos_iff.mp (not_lt.mp hin))
        · exact h2 h0
      refine ⟨Axis.x, round (p.comp Axis.x),
        if d.z * -1 > 0 then Direction.neg else Direction.pos, ?_, ?_⟩
      · simp only [resolveMove]
        rw [if_neg (by norm_num : ¬ |(0 : ℚ)| > 1 / 2),
          if_pos (by norm_num : |(-1 : ℚ)| > 1 / 2), if_neg hin]
      · simp only [resolveMove, negQ]
        rw [if_neg (by norm_num : ¬ |(-0 : ℚ)| > 1 / 2),
          if_pos (by norm_num : |(-(-1) : ℚ)| > 1 / 2), if_neg hin,
          opp_if_np (d.z * -1) (mul_ne_zero hdz (by norm_num))]
        simp only [show d.z * -(-1) = -(d.z * -1) from by ring]
  · -- n = (0, 0, 1)
    have ht : d.x ≠ 0 ∨ d.y ≠ 0 := htan.2.2 (by norm_num)
    by_cases hin : |d.x| > |d.y|
    · have hdx : d.x ≠ 0 := by
        intro h0
        rw [h0, abs_zero] at hin
        exact absurd hin (abs_nonneg d.y).not_lt
      refine ⟨Axis.y, round (p.comp Axis.y),
        if d.x * 1 > 0 then Direction.neg else Direction.pos, ?_, ?_⟩
      · simp only [resolveMove]
        rw [if_neg (by norm_num : ¬ |(0 : ℚ)| > 1 / 2),
          if_neg (by norm_num : ¬ |(0 : ℚ)| > 1 / 2), if_pos hin]
      · simp only [resolveMove, negQ]
        rw [if_neg (by norm_num : ¬ |(-0 : ℚ)| > 1 / 2),
          if_neg (by norm_num : ¬ |(-0 : ℚ)| > 1 / 2), if_pos hin,
          opp_if_np (d.x * 1) (mul_ne_zero hdx (by norm_num))]
        simp only [show d.x * -1 = -(d.x * 1) from by ring]
    · have hdy : d.y ≠ 0 := by
        intro h0
        rcases ht with h2 | h2
        · rw [h0, abs_zero] at hin
          exact h2 (abs_nonpos_iff.mp (not_lt.mp hin))
        · exact h2 h0
      refine ⟨Axis.x, round (p.comp Axis.x),
        if d.y * 1 > 0 then Direction.pos else Direction.neg, ?_, ?_⟩
      · simp only [resolveMove]
        rw [if_neg (by norm_num : ¬ |(0 : ℚ)| > 1 / 2),
          if_neg (by norm_num : ¬ |(0 : ℚ)| > 1 / 2), if_neg hin]
      · simp only [resolveMove, negQ]
        rw [if_neg (by norm_num : ¬ |(-0 : ℚ)| > 1 / 2),
          if_neg (by norm_num : ¬ |(-0 : ℚ)| > 1 / 2), if_neg hin,
          opp_if_pn (d.y * 1) (mul_ne_zero hdy (by norm_num))]
        simp only [show d.y * -1 = -(d.y * 1) from by ring]
  · -- n = (0, 0, -1)
    have ht : d.x ≠ 0 ∨ d.y ≠ 0 := htan.2.2 (by norm_num)
    by_cases hin : |d.x| > |d.y|
    · have hdx : d.x ≠ 0 := by
        intro h0
        rw [h0, abs_zero] at hin
        exact absurd hin (abs_nonneg d.y).not_lt
      refine ⟨Axis.y, round (p.comp Axis.y),
        if d.x * -1 > 0 then Direction.neg else Direction.pos, ?_, ?_⟩
      · simp only [resolveMove]
        rw [if_neg (by norm_num : ¬ |(0 : ℚ)| > 1 / 2),
          if_neg (by norm_num : ¬ |(0 : ℚ)| > 1 / 2), if_pos hin]
      · simp only [resolveMove, negQ]
        rw [if_neg (by norm_num : ¬ |(-0 : ℚ)| > 1 / 2),
          if_neg (by norm_num : ¬ |(-0 : ℚ)| > 1 / 2), if_pos hin,
          opp_if_np (d.x * -1) (mul_ne_zero hdx (by norm_num))]
        simp only [show d.x * -(-1) = -(d.x * -1) from by ring]
    · have hdy : d.y ≠ 0 := by
        intro h0
        rcases ht with h2 | h2
        · rw [h0, abs_zero] at hin
          exact h2 (abs_nonpos_iff.mp (not_lt.mp hin))
        · exact h2 h0
      refine ⟨Axis.x, round (p.comp Axis.x),
        if d.y * -1 > 0 then Direction.pos else Direction.neg, ?_, ?_⟩
      · simp only [resolveMove]
        rw [if_neg (by norm_num : ¬ |(0 : ℚ)| > 1 / 2),
          if_neg (by norm_num : ¬ |(0 : ℚ)| > 1 / 2), if_neg hin]
      · simp only [resolveMove, negQ]
        rw [if_neg (by norm_num : ¬ |(-0 : ℚ)| > 1 / 2),
          if_neg (by norm_num : ¬ |(-0 : ℚ)| > 1 / 2), if_neg hin,
          opp_if_pn (d.y * -1) (mul_ne_zero hdy (by norm_num))]
        simp only [show d.y * -(-1) = -(d.y * -1) from by ring]

theorem gesture_mirror_of_tangential_witness :
    (⟨1, 0, 0⟩ : QVec3) ∈ snappedNormals
      ∧ (1 : ℚ) / 16 ≤ lengthSq ⟨0, 1, 0⟩
      ∧ ∃ a i u, resolveMove ⟨1, 0, 0⟩ ⟨0, 1, 0⟩ ⟨0, 0, 0⟩ = ⟨a, i, u⟩
          ∧ resolveMove (negQ ⟨1, 0, 0⟩) ⟨0, 1, 0⟩ ⟨0, 0, 0⟩ = ⟨a, i, u.opp⟩ :=
  ⟨by decide, by norm_num [lengthSq],
    gesture_mirror_of_tangential ⟨1, 0, 0⟩ ⟨0, 1, 0⟩ ⟨0, 0, 0⟩ (by decide)
      (by norm_num [lengthSq])
      ⟨fun _ => Or.inl (by norm_num), fun h => absurd rfl h, fun h => absurd rfl h⟩⟩

/-- C8: a drag update whose drag vector is inside the 0.25 dead zone
resolves no move and leaves both the interaction state and the cubelet
store unchanged. -/
theorem dead_zone_no_move (inter : InteractState) (point : QVec3) (s : Store)
    (h : lengthSq (subQ point inter.startPoint) < 1 / 16) :
    handlePointerMove inter point s = (none, inter, s) := by
  unfold handlePointerMove
  by_cases hg :
      (!inter.isDragging || s.isAnimating || inter.intersectedCubieId == -1) = true
  · rw [if_pos hg]
  · rw [if_neg hg, if_pos h]

theorem dead_zone_no_move_witness :
    lengthSq (subQ ⟨1 / 10, 0, 0⟩
        (⟨⟨0, 1, 0⟩, ⟨0, 0, 0⟩, 0, true⟩ : InteractState).startPoint) < 1 / 16
      ∧ handlePointerMove ⟨⟨0, 1, 0⟩, ⟨0, 0, 0⟩, 0, true⟩ ⟨1 / 10, 0, 0⟩ initStore
          = (none, ⟨⟨0, 1, 0⟩, ⟨0, 0, 0⟩, 0, true⟩, initStore) :=
  ⟨by norm_num [lengthSq, subQ],
    dead_zone_no_move ⟨⟨0, 1, 0⟩, ⟨0, 0, 0⟩, 0, true⟩ ⟨1 / 10, 0, 0⟩ initStore
      (by norm_num [lengthSq, subQ])⟩

/-- C9: a committed move updates `currentPos` only for the cubelets in
the selected slice at commit time, leaves `currentPos` of every other
cubelet unchanged, and never changes the `id`,
`initialPos` or `colorMap`. -/
theorem move_frame_condition (s : Store) (a : Axis) (i : Int) (d : Direction) :
    List.Forall₂ (fun c c' : Cubelet =>
        c'.id = c.id ∧ c'.initialPos = c.initialPos ∧ c'.colorMap = c.colorMap
          ∧ (round (c.currentPos.comp a) ≠ i → c'.currentPos = c.currentPos)
          ∧ (round (c.currentPos.comp a) = i →
              c'.currentPos = roundVec (rotVec a d c.currentPos)))
      s.cubelets (rotateSlice a i d s).cubelets := by
  simp only [rotateSlice]
  rw [List.forall₂_map_right_iff, List.forall₂_same]
  intro c _
  by_cases h : round (c.currentPos.comp a) = i
  · obtain ⟨cid, ip, p, m, col⟩ := c
    rw [stepCubelet_mk_of_mem h]
    refine ⟨rfl, rfl, rfl, fun hne => absurd h hne, fun _ => ?_⟩
    rw [roundVec_id]
  · obtain ⟨cid, ip, p, m, col⟩ := c
    rw [stepCubelet_mk_of_not_mem h]
    exact ⟨rfl, rfl, rfl, fun _ => rfl, fun hmem => absurd hmem h⟩

theorem move_frame_condition_witness :
    List.Forall₂ (fun c c' : Cubelet =>
        c'.id = c.id ∧ c'.initialPos = c.initialPos ∧ c'.colorMap = c.colorMap
          ∧ (round (c.currentPos.comp Axis.x) ≠ 1 → c'.currentPos = c.currentPos)
          ∧ (round (c.currentPos.comp Axis.x) = 1 →
              c'.currentPos = roundVec (rotVec Axis.x Direction.pos c.currentPos)))
      initStore.cubelets (rotateSlice Axis.x 1 Direction.pos initStore).cubelets :=
  move_frame_condition initStore Axis.x 1 Direction.pos

/-- C10: the solved check returns false without evaluating any cubelet
whenever the game state is not `PLAYING`; in particular it can never
fire during the scramble phase, where `App.startSequence` keeps the
game state at `IDLE`, nor while idle. -/
theorem solved_gate_requires_playing (g : GameState) (cs : List Cubelet)
    (h : g ≠ GameState.PLAYING) :
    checkSolved g cs = false
      ∧ ∀ cs', checkSolved scrambleGameState cs' = false := by
  constructor
  · unfold checkSolved
    rw [if_pos h]
  · intro cs'
    unfold checkSolved scrambleGameState
    rw [if_pos (show GameState.IDLE ≠ GameState.PLAYING by decide)]

theorem solved_gate_requires_playing_witness :
    GameState.IDLE ≠ GameState.PLAYING
      ∧ (checkSolved GameState.IDLE initialCubelets = false
          ∧ ∀ cs', checkSolved scrambleGameState cs' = false) :=
  ⟨by decide, solved_gate_requires_playing GameState.IDLE initialCubelets (by decide)⟩

end NeonCube
